import Mathlib

/-!
Shallow embedding of the stream-list repository's core pipeline:

* `src/src/services/api.ts` — `fetchStreams` / `fetchAllStreams`: the
  cursor-driven pagination loop with a 10-iteration cap, the ≥ 1000
  raw-record break, and the dedupe-by-`id` step
  (`Array.from(new Map(allStreams.map(s => [s.id, s])).values())`).
* `src/src/components/DataList.tsx` (and the unnamed near-duplicate
  variants) — `loadStreams` plus the presentation filter
  (case-insensitive substring on `title` / `user_name`) and the stable
  sort by `viewer_count`.
* `src/api/steams.js` — the two copies of `getOAuthToken` (token cache
  with a 60 s safety margin; the second copy also validates the
  environment credentials before the network call).

The upstream service is modelled as a function from the fetch index
(0 = the first page request) to the outcome of that HTTP request.  The
aggregation loop of the source is sequential and deterministic, so the
i-th request of a load is fully determined by the index i.
-/

namespace StreamSpec

/-- One stream record, with the fields of the repository's
`TwitchStream` type that the core pipeline reads (`id`, `user_name`,
`title`, `viewer_count`, plus the remaining presentation fields). -/
structure TwitchStream where
  id : String
  user_name : String
  game_id : String
  game_name : String
  title : String
  viewer_count : Int
  thumbnail_url : String
  started_at : String
  language : String
  is_mature : Bool
deriving DecidableEq, Repr

/-- The `pagination` object of a page response; `cursor` is optional
(`pagination: { cursor?: string }`). -/
structure Pagination where
  cursor : Option String
deriving DecidableEq, Repr

/-- One page response.  The TypeScript type always has a `pagination`
object, but at runtime a JSON body may lack it entirely; the loop reads
`response.pagination.cursor` unconditionally, which throws a `TypeError`
when `pagination` is absent.  We therefore model `pagination` as
optional and raise `ApiError.typeError` on the missing case. -/
structure Page where
  data : List TwitchStream
  pagination : Option Pagination
deriving DecidableEq, Repr

/-- Errors observable by the aggregation loop: a failed page request
(the axios promise rejecting), or the runtime `TypeError` from reading
`.cursor` off a missing `pagination` object. -/
inductive ApiError where
  | fetchFailed (msg : String)
  | typeError
deriving DecidableEq, Repr

/-- The upstream as seen by the loop: the outcome of the i-th HTTP page
request of one load (i = 0 is the first, cursor-less request). -/
def Upstream : Type := Nat → Except ApiError Page

instance exceptDecEq {ε α : Type} [DecidableEq ε] [DecidableEq α] :
    DecidableEq (Except ε α) := fun x y =>
  match x, y with
  | .ok a, .ok b =>
    if h : a = b then .isTrue (by rw [h]) else .isFalse (by intro hh; cases hh; exact h rfl)
  | .error a, .error b =>
    if h : a = b then .isTrue (by rw [h]) else .isFalse (by intro hh; cases hh; exact h rfl)
  | .ok _, .error _ => .isFalse (by intro h; cases h)
  | .error _, .ok _ => .isFalse (by intro h; cases h)

/-- Outcome of one run of the aggregation loop: the result (raw
accumulated records, or the error that aborted the load), the total
number of page fetches issued, and the raw (pre-dedup) accumulated
records at the moment the loop stopped. -/
structure RunOut where
  result : Except ApiError (List TwitchStream)
  fetches : Nat
  raw : List TwitchStream
deriving DecidableEq, Repr

/-- The `while (cursor && currentPage < 10)` loop of `fetchAllStreams`
(`src/src/services/api.ts` lines 34–45).  `pagesLeft` encodes the loop
bound: the source keeps `currentPage` (starting at 0) and tests
`currentPage < 10`; here `pagesLeft = 10 - currentPage`, so the test
`currentPage < 10` is `pagesLeft ≠ 0` and `currentPage++` is the
decrement.  The loop body in source order: fetch, push `response.data`,
read `response.pagination.cursor` (TypeError when `pagination` is
missing), increment the page counter, and `break` once
`allStreams.length >= 1000`. -/
def fetchLoop (up : Upstream) : Nat → Nat → List TwitchStream → Option String → RunOut
  | _, fetchIdx, acc, none => ⟨.ok acc, fetchIdx, acc⟩
  | 0, fetchIdx, acc, some _ => ⟨.ok acc, fetchIdx, acc⟩
  | pagesLeft + 1, fetchIdx, acc, some _ =>
    match up fetchIdx with
    | .error e => ⟨.error e, fetchIdx + 1, acc⟩
    | .ok page =>
      match page.pagination with
      | none => ⟨.error .typeError, fetchIdx + 1, acc ++ page.data⟩
      | some pg =>
        if 1000 ≤ (acc ++ page.data).length then
          ⟨.ok (acc ++ page.data), fetchIdx + 1, acc ++ page.data⟩
        else
          fetchLoop up pagesLeft (fetchIdx + 1) (acc ++ page.data) pg.cursor

/-- One load: the unconditional first-page fetch (lines 29–31 of
`api.ts`: fetch, push `response.data`, read `response.pagination.cursor`)
followed by the `while` loop.  Note that the ≥ 1000 break is only ever
checked at the end of a loop iteration — the first page's record count
is never tested before entering the loop. -/
def runStreams (up : Upstream) : RunOut :=
  match up 0 with
  | .error e => ⟨.error e, 1, []⟩
  | .ok page =>
    match page.pagination with
    | none => ⟨.error .typeError, 1, page.data⟩
    | some pg => fetchLoop up 10 1 page.data pg.cursor

/-- `new Map(...).set`-style insertion on an association list: JS `Map`
keeps the first-insertion position of an existing key and overwrites its
value; a new key is appended at the end. -/
def jsMapSet (m : List (String × TwitchStream)) (k : String) (v : TwitchStream) :
    List (String × TwitchStream) :=
  if m.any (fun kv => kv.1 = k) then
    m.map (fun kv => if kv.1 = k then (k, v) else kv)
  else
    m ++ [(k, v)]

/-- `new Map(entries)`: insert the entries in order. -/
def jsMapOfEntries (entries : List (String × TwitchStream)) :
    List (String × TwitchStream) :=
  entries.foldl (fun m kv => jsMapSet m kv.1 kv.2) []

/-- `Map.prototype.get`-style lookup on the association list: the first
(and, with distinct keys, only) entry stored under `k`. -/
def lookupKey (m : List (String × TwitchStream)) (k : String) :
    Option (String × TwitchStream) :=
  m.find? (fun kv => kv.1 = k)

/-- `Array.from(new Map(l.map(s => [s.id, s])).values())` — the dedupe
step of `fetchAllStreams` (lines 47–50) and of the inline `loadStreams`
loop in `DataList.tsx`. -/
def dedupeStreams (l : List TwitchStream) : List TwitchStream :=
  (jsMapOfEntries (l.map (fun s => (s.id, s)))).map Prod.snd

/-- `fetchAllStreams`: run the pagination loop, then dedupe.  An error
anywhere in the loop rejects the whole promise — no partial list is
returned alongside it. -/
def fetchAllStreams (up : Upstream) : Except ApiError (List TwitchStream) :=
  (runStreams up).result.map dedupeStreams

/-- The component state that `loadStreams` (DataList variants) leaves
behind: `streams` / `displayedStreams`, the error message, and the
loading flag. -/
structure ViewState where
  streams : List TwitchStream
  displayedStreams : List TwitchStream
  error : Option String
  isLoading : Bool
deriving DecidableEq, Repr

/-- The `err.message` the catch block stores
(`err instanceof Error ? err.message : 'Failed to load streams'`). -/
def errorMessage : ApiError → String
  | .fetchFailed msg => msg
  | .typeError => "Cannot read properties of undefined (reading 'cursor')"

/-- `loadStreams` of the DataList variants: reset state, run the load;
on success store the deduplicated list, on failure store only the error
message (the stream lists were reset to `[]` at the start and are never
set from a failed load). -/
def loadStreams (up : Upstream) : ViewState :=
  match fetchAllStreams up with
  | .ok data => ⟨data, data, none, false⟩
  | .error e => ⟨[], [], some (errorMessage e), false⟩

/-- JS `String.prototype.toLowerCase` modelled as per-character
lowercasing (ASCII case folding via `Char.toLower`). -/
def jsToLower (s : String) : String :=
  ⟨s.data.map Char.toLower⟩

/-- JS `s.includes(q)` — `q` occurs as a contiguous substring of `s`. -/
def jsIncludes (s q : String) : Bool :=
  decide (q.data <:+: s.data)

/-- The filter predicate of `DataList.tsx` lines 76–79:
`stream.title.toLowerCase().includes(searchTerm.toLowerCase()) ||
 stream.user_name.toLowerCase().includes(searchTerm.toLowerCase())`. -/
def matchesSearch (searchTerm : String) (s : TwitchStream) : Bool :=
  jsIncludes (jsToLower s.title) (jsToLower searchTerm) ||
  jsIncludes (jsToLower s.user_name) (jsToLower searchTerm)

/-- The filter predicate of the `part_001` variant (lines 50–52): the
query is matched against `title` only. -/
def matchesSearchTitleOnly (searchTerm : String) (s : TwitchStream) : Bool :=
  jsIncludes (jsToLower s.title) (jsToLower searchTerm)

/-- The presentation filter of `DataList.tsx` (lines 73–80):
`if (searchTerm)` — the empty string is falsy, so an empty query keeps
the whole list; otherwise `Array.prototype.filter` with
`matchesSearch`. -/
def filterStreams (searchTerm : String) (l : List TwitchStream) : List TwitchStream :=
  if searchTerm = "" then l else l.filter (matchesSearch searchTerm)

/-- The `part_001` variant of the presentation filter (title only). -/
def filterStreamsTitleOnly (searchTerm : String) (l : List TwitchStream) :
    List TwitchStream :=
  if searchTerm = "" then l else l.filter (matchesSearchTitleOnly searchTerm)

/-- The spec's notion of a match: the query occurs in the field as a
case-insensitive substring, i.e. some contiguous piece of the field
equals the query up to per-character lowercasing. -/
def caseInsensitiveSubstr (needle hay : String) : Prop :=
  ∃ w : List Char, w <:+: hay.data ∧ w.map Char.toLower = needle.data.map Char.toLower

/-- The sort toggle (`sortOrder: 'asc' | 'desc'`). -/
inductive SortOrder where
  | asc
  | desc
deriving DecidableEq, Repr

/-- The JS comparator of `DataList.tsx` lines 82–87 as an ordering
relation: `sortComparator o a b` holds when keeping `a` before `b` is
consistent with the comparator (`cmp(a, b) ≤ 0`).  For `desc` the
comparator is `b.viewer_count - a.viewer_count`, so `cmp(a, b) ≤ 0` is
`b.viewer_count ≤ a.viewer_count`; dually for `asc`. -/
def sortComparator : SortOrder → TwitchStream → TwitchStream → Prop
  | .desc, a, b => b.viewer_count ≤ a.viewer_count
  | .asc, a, b => a.viewer_count ≤ b.viewer_count

instance sortComparatorDecidable (o : SortOrder) : DecidableRel (sortComparator o) :=
  fun a b => by cases o <;> simp only [sortComparator] <;> infer_instance

/-- `filtered.sort(cmp)`: ECMAScript `Array.prototype.sort` is required
to be stable, and the comparator is a total preorder on `viewer_count`,
so the result is the unique stable sort for `sortComparator o` — which
any stable sorting algorithm realizes; we use insertion sort. -/
def sortStreams (o : SortOrder) (l : List TwitchStream) : List TwitchStream :=
  List.insertionSort (sortComparator o) l

/-- The displayed list: the second `useEffect` of the DataList variants
filters then sorts a copy of `streams`. -/
def displayedList (searchTerm : String) (o : SortOrder) (streams : List TwitchStream) :
    List TwitchStream :=
  sortStreams o (filterStreams searchTerm streams)

/-- The environment the Token Manager reads (`process.env`): a missing
variable is `undefined`. -/
structure Env where
  TWITCH_CLIENT_ID : Option String
  TWITCH_CLIENT_SECRET : Option String
deriving DecidableEq, Repr

/-- JS truthiness of an optional string: `undefined` and `''` are
falsy. -/
def truthy : Option String → Bool
  | none => false
  | some s => decide (¬ s = "")

/-- The module-level token cache of `steams.js`
(`let cachedToken = null; let tokenExpiry = 0`). -/
structure TokenState where
  cachedToken : Option String
  tokenExpiry : Int
deriving DecidableEq, Repr

/-- The cache at module load. -/
def initialTokenState : TokenState := ⟨none, 0⟩

/-- The upstream token endpoint's success body
(`{ access_token, expires_in }`). -/
structure TokenResponse where
  access_token : String
  expires_in : Int
deriving DecidableEq, Repr

/-- Errors `getOAuthToken` can throw: the configuration error of the
credential-checking copy, and the exchange-rejected errors of the two
copies (the first copy's message has no status, the second copy
interpolates status and body). -/
inductive AuthError where
  | configError
  | tokenRequestFailed
  | tokenRequestFailedWith (status : Int) (body : String)
deriving DecidableEq, Repr

/-- Outcome of one `getOAuthToken` call: the returned token or thrown
error, the cache afterwards, and how many upstream credential-exchange
requests were performed during the call (0 or 1). -/
structure TokenOut where
  result : Except AuthError String
  state : TokenState
  networkCalls : Nat
deriving DecidableEq, Repr

/-- Outcome of the one credential-exchange request, when performed:
either the success body or the non-ok `(status, body)` pair. -/
def ExchangeResult : Type := Except (Int × String) TokenResponse

/-- `cachedToken && Date.now() < tokenExpiry` — the cache-validity test
shared by both copies of `getOAuthToken`. -/
def cacheValid (st : TokenState) (now : Int) : Bool :=
  truthy st.cachedToken && decide (now < st.tokenExpiry)

/-- The first copy of `getOAuthToken` (`steams.js` lines 4–30): return
the cached token while valid; otherwise perform the exchange
unconditionally — there is no credential check, so a missing client id
or secret still causes a network call.  On success cache
`(token, now + expires_in * 1000 - 60000)` (60 s safety margin). -/
def getOAuthTokenV1 (env : Env) (now : Int) (exchange : ExchangeResult)
    (st : TokenState) : TokenOut :=
  if cacheValid st now then
    ⟨.ok (st.cachedToken.getD ""), st, 0⟩
  else
    match exchange with
    | .error _ => ⟨.error .tokenRequestFailed, st, 1⟩
    | .ok tr =>
      ⟨.ok tr.access_token,
       ⟨some tr.access_token, now + tr.expires_in * 1000 - 60000⟩, 1⟩

/-- The second copy of `getOAuthToken` (`steams.js` lines 106–154):
like the first copy, but between the cache check and the network call it
validates `process.env.TWITCH_CLIENT_ID` / `TWITCH_CLIENT_SECRET` and
throws the configuration error when either is falsy. -/
def getOAuthToken (env : Env) (now : Int) (exchange : ExchangeResult)
    (st : TokenState) : TokenOut :=
  if cacheValid st now then
    ⟨.ok (st.cachedToken.getD ""), st, 0⟩
  else if !truthy env.TWITCH_CLIENT_ID || !truthy env.TWITCH_CLIENT_SECRET then
    ⟨.error .configError, st, 0⟩
  else
    match exchange with
    | .error es => ⟨.error (.tokenRequestFailedWith es.1 es.2), st, 1⟩
    | .ok tr =>
      ⟨.ok tr.access_token,
       ⟨some tr.access_token, now + tr.expires_in * 1000 - 60000⟩, 1⟩

/-- `pageDataOf up i`: the records delivered by the i-th page request
(`[]` when that request failed). -/
def pageDataOf (up : Upstream) (i : Nat) : List TwitchStream :=
  match up i with
  | .ok p => p.data
  | .error _ => []

/-- The raw records delivered by the first `n` page requests, in fetch
order — the value of `allStreams` after `n` successful fetches. -/
def consumedRaw (up : Upstream) (n : Nat) : List TwitchStream :=
  ((List.range n).map (pageDataOf up)).flatten

/-- A sample record used in concrete instances. -/
def sampleStream (id userName title : String) (vc : Int) : TwitchStream :=
  ⟨id, userName, "516575", "VALORANT", title, vc, "", "", "en", false⟩

/-- An upstream that always answers with an empty page and a cursor. -/
def upAlwaysCursor : Upstream :=
  fun _ => .ok ⟨[], some ⟨some "c"⟩⟩

/-- An upstream whose first page already carries 1000 records and a
cursor; every later page is empty with a cursor. -/
def upFirstPageBig : Upstream :=
  fun i =>
    if i = 0 then .ok ⟨List.replicate 1000 (sampleStream "a" "ua" "t" 1), some ⟨some "c"⟩⟩
    else .ok ⟨[], some ⟨some "c"⟩⟩

/-- An upstream delivering two good pages and failing on the third
request. -/
def upThirdFails : Upstream :=
  fun i =>
    if i = 0 then .ok ⟨[sampleStream "a" "ua" "t" 1], some ⟨some "c0"⟩⟩
    else if i = 1 then .ok ⟨[sampleStream "b" "ub" "t" 2], some ⟨some "c1"⟩⟩
    else .error (.fetchFailed "Request failed with status code 500")

/-- An upstream that ends with a cursor-less pagination object on the
second page. -/
def upTwoPages : Upstream :=
  fun i =>
    if i = 0 then .ok ⟨[sampleStream "a" "ua" "t" 1], some ⟨some "c0"⟩⟩
    else .ok ⟨[sampleStream "b" "ub" "t" 2], some ⟨none⟩⟩

/-- An upstream whose second page has a `data` array but no
`pagination` object at all. -/
def upNoPagination : Upstream :=
  fun i =>
    if i = 0 then .ok ⟨[sampleStream "a" "ua" "t" 1], some ⟨some "c0"⟩⟩
    else .ok ⟨[sampleStream "b" "ub" "t" 2], none⟩

/-! ### Lemmas about the pagination loop -/

/-- The loop issues at most `fuel` further fetches. -/
theorem fetchLoop_fetches_le (up : Upstream) :
    ∀ (fuel idx : Nat) (acc : List TwitchStream) (cur : Option String),
      (fetchLoop up fuel idx acc cur).fetches ≤ idx + fuel := by
  intro fuel
  induction fuel with
  | zero =>
    intro idx acc cur
    cases cur <;> simp [fetchLoop]
  | succ n ih =>
    intro idx acc cur
    cases cur with
    | none => simp [fetchLoop]
    | some c =>
      simp only [fetchLoop]
      cases h : up idx with
      | error e => simp [h] <;> omega
      | ok page =>
        simp only [h]
        cases hp : page.pagination with
        | none => simp [hp] <;> omega
        | some pg =>
          simp only [hp, List.length_append]
          by_cases hlen : 1000 ≤ acc.length + page.data.length
          · simp [hlen] <;> omega
          · simp only [if_neg hlen]
            have := ih (idx + 1) (acc ++ page.data) pg.cursor
            omega

/-- C1, amended: one load issues at most 11 page fetches (the
unconditional first-page fetch plus at most 10 loop fetches). -/
theorem runStreams_fetches_le (up : Upstream) :
    (runStreams up).fetches ≤ 11 := by
  unfold runStreams
  cases h : up 0 with
  | error e => simp [h]
  | ok page =>
    simp only [h]
    cases hp : page.pagination with
    | none => simp [hp]
    | some pg =>
      simp only [hp]
      simpa using fetchLoop_fetches_le up 10 1 page.data pg.cursor

/-- C1, counterexample: against an upstream that always returns a
cursor, one load issues 11 page fetches — more than the 10 the claim
allows. -/
theorem runStreams_eleven_fetches :
    (runStreams upAlwaysCursor).fetches = 11 ∧
      ¬ (runStreams upAlwaysCursor).fetches ≤ 10 := by
  constructor <;> decide

/-- If the loop issues fetch `k` and that fetch fails, the whole loop
result is that error: the records accumulated so far are never returned
as a result. -/
theorem fetchLoop_error_aborts (up : Upstream) :
    ∀ (fuel idx : Nat) (acc : List TwitchStream) (cur : Option String)
      (k : Nat) (e : ApiError),
      idx ≤ k → k < (fetchLoop up fuel idx acc cur).fetches → up k = .error e →
      (fetchLoop up fuel idx acc cur).result = .error e := by
  intro fuel
  induction fuel with
  | zero =>
    intro idx acc cur k e hik hk hup
    cases cur <;> simp [fetchLoop] at hk <;> omega
  | succ n ih =>
    intro idx acc cur k e hik hk hup
    cases cur with
    | none => simp [fetchLoop] at hk; omega
    | some c =>
      simp only [fetchLoop] at hk ⊢
      cases h : up idx with
      | error e' =>
        simp only [h] at hk ⊢
        have hke : k = idx := by omega
        rw [hke, h] at hup
        injection hup with he
        simp [he]
      | ok page =>
        have hne : k ≠ idx := by
          intro hkeq
          rw [hkeq, h] at hup
          exact Except.noConfusion hup
        simp only [h] at hk ⊢
        cases hp : page.pagination with
        | none =>
          simp only [hp, RunOut.fetches] at hk
          omega
        | some pg =>
          simp only [hp, List.length_append] at hk ⊢
          by_cases hlen : 1000 ≤ acc.length + page.data.length
          · simp only [if_pos hlen, RunOut.fetches] at hk
            omega
          · simp only [if_neg hlen] at hk ⊢
            exact ih (idx + 1) (acc ++ page.data) pg.cursor k e (by omega) hk hup

/-- C3: if any page fetch after the first fails while the loop is still
running, the load's result is exactly that error — `fetchAllStreams`
rejects, and the DataList state afterwards holds no records, only the
error message (all-or-nothing failure). -/
theorem load_error_all_or_nothing (up : Upstream) (k : Nat) (e : ApiError)
    (hk1 : 1 ≤ k) (hk : k < (runStreams up).fetches) (hup : up k = .error e) :
    (runStreams up).result = .error e ∧
      fetchAllStreams up = .error e ∧
      loadStreams up = ⟨[], [], some (errorMessage e), false⟩ := by
  have hres : (runStreams up).result = .error e := by
    unfold runStreams at hk ⊢
    cases h : up 0 with
    | error e' => simp [h] at hk; omega
    | ok page =>
      simp only [h] at hk ⊢
      cases hp : page.pagination with
      | none => simp [hp] at hk; omega
      | some pg =>
        simp only [hp] at hk ⊢
        exact fetchLoop_error_aborts up 10 1 page.data pg.cursor k e hk1 hk hup
  refine ⟨hres, ?_, ?_⟩
  · unfold fetchAllStreams
    rw [hres]
    rfl
  · unfold loadStreams fetchAllStreams
    rw [hres]
    rfl

/-- C3, witness: with an upstream whose third page request fails, the
load ends in the error state with no records. -/
theorem load_error_all_or_nothing_witness :
    (runStreams upThirdFails).result
        = .error (.fetchFailed "Request failed with status code 500") ∧
      fetchAllStreams upThirdFails
        = .error (.fetchFailed "Request failed with status code 500") ∧
      loadStreams upThirdFails
        = ⟨[], [], some "Request failed with status code 500", false⟩ :=
  load_error_all_or_nothing upThirdFails 2
    (.fetchFailed "Request failed with status code 500")
    (by decide) (by decide) (by decide)

/-- If the loop consumes a page whose pagination object carries no
cursor, it stops right after merging that page and returns the
accumulated records. -/
theorem fetchLoop_stops_on_no_cursor (up : Upstream) :
    ∀ (fuel idx : Nat) (acc : List TwitchStream) (cur : Option String)
      (k : Nat) (page : Page) (pg : Pagination),
      idx ≤ k → k < (fetchLoop up fuel idx acc cur).fetches →
      up k = .ok page → page.pagination = some pg → pg.cursor = none →
      (fetchLoop up fuel idx acc cur).fetches = k + 1 ∧
        (fetchLoop up fuel idx acc cur).result = .ok (fetchLoop up fuel idx acc cur).raw ∧
        page.data <:+ (fetchLoop up fuel idx acc cur).raw := by
  intro fuel
  induction fuel with
  | zero =>
    intro idx acc cur k page pg hik hk hup hpg hcur
    cases cur <;> simp [fetchLoop] at hk <;> omega
  | succ n ih =>
    intro idx acc cur k page pg hik hk hup hpg hcur
    cases cur with
    | none => simp [fetchLoop] at hk; omega
    | some c =>
      cases h : up idx with
      | error e' =>
        simp only [fetchLoop, h] at hk
        have hke : k = idx := by omega
        rw [hke, h] at hup
        exact Except.noConfusion hup
      | ok page' =>
        by_cases hki : k = idx
        · subst hki
          rw [h] at hup
          injection hup with he
          have hpg' : page'.pagination = some pg := by rw [he]; exact hpg
          have hpd : fetchLoop up (n + 1) k acc (some c)
              = ⟨.ok (acc ++ page'.data), k + 1, acc ++ page'.data⟩ := by
            simp [fetchLoop, h, hpg', hcur]
          rw [hpd]
          refine ⟨rfl, rfl, ?_⟩
          rw [← he]
          exact List.suffix_append _ _
        · simp only [fetchLoop, h] at hk ⊢
          cases hp' : page'.pagination with
          | none =>
            simp only [hp'] at hk
            omega
          | some pg' =>
            simp only [hp', List.length_append] at hk ⊢
            by_cases hlen : 1000 ≤ acc.length + page'.data.length
            · simp only [if_pos hlen] at hk
              omega
            · simp only [if_neg hlen] at hk ⊢
              exact ih (idx + 1) (acc ++ page'.data) pg'.cursor k page pg
                (by omega) hk hup hpg hcur

/-- C5: a page response whose pagination object carries no cursor ends
the load right after that page is merged, whatever has been accumulated:
the fetch count stops at that page, the loop result is the accumulated
raw list (the consumed page's records form its tail), and
`fetchAllStreams` resolves with the deduplicated records. -/
theorem load_ends_on_missing_cursor (up : Upstream) (k : Nat) (page : Page)
    (pg : Pagination) (hk : k < (runStreams up).fetches) (hup : up k = .ok page)
    (hpg : page.pagination = some pg) (hcur : pg.cursor = none) :
    (runStreams up).fetches = k + 1 ∧
      (runStreams up).result = .ok (runStreams up).raw ∧
      page.data <:+ (runStreams up).raw ∧
      fetchAllStreams up = .ok (dedupeStreams (runStreams up).raw) := by
  have main : (runStreams up).fetches = k + 1 ∧
      (runStreams up).result = .ok (runStreams up).raw ∧
      page.data <:+ (runStreams up).raw := by
    unfold runStreams at hk ⊢
    cases h : up 0 with
    | error e' =>
      simp only [h] at hk
      have hk0 : k = 0 := by simp at hk; omega
      rw [hk0, h] at hup
      exact Except.noConfusion hup
    | ok page' =>
      simp only [h] at hk ⊢
      cases hp' : page'.pagination with
      | none =>
        simp only [hp'] at hk
        have hk0 : k = 0 := by simp at hk; omega
        rw [hk0, h] at hup
        injection hup with he
        rw [he, hpg] at hp'
        exact Option.noConfusion hp'
      | some pg0 =>
        simp only [hp'] at hk ⊢
        by_cases hk0 : k = 0
        · subst hk0
          rw [h] at hup
          injection hup with he
          subst he
          rw [hpg] at hp'
          injection hp' with hpe
          rw [hpe] at hcur
          rw [hcur]
          simp [fetchLoop]
        · exact fetchLoop_stops_on_no_cursor up 10 1 page'.data pg0.cursor k page pg
            (by omega) hk hup hpg hcur
  refine ⟨main.1, main.2.1, main.2.2, ?_⟩
  unfold fetchAllStreams
  rw [main.2.1]
  rfl

/-- C5, witness: an upstream whose second page response has a
pagination object without a cursor stops the load at two fetches, with
both pages' records delivered. -/
theorem load_ends_on_missing_cursor_witness :
    (runStreams upTwoPages).fetches = 2 ∧
      (runStreams upTwoPages).result = .ok (runStreams upTwoPages).raw ∧
      [sampleStream "b" "ub" "t" 2] <:+ (runStreams upTwoPages).raw ∧
      fetchAllStreams upTwoPages = .ok (dedupeStreams (runStreams upTwoPages).raw) :=
  load_ends_on_missing_cursor upTwoPages 1 ⟨[sampleStream "b" "ub" "t" 2], some ⟨none⟩⟩
    ⟨none⟩ (by decide) (by decide) (by decide) (by decide)

/-- If the loop consumes a page that has no pagination object at all,
reading `.cursor` off it throws, and the whole loop result is the
`TypeError`. -/
theorem fetchLoop_missing_pagination (up : Upstream) :
    ∀ (fuel idx : Nat) (acc : List TwitchStream) (cur : Option String)
      (k : Nat) (page : Page),
      idx ≤ k → k < (fetchLoop up fuel idx acc cur).fetches →
      up k = .ok page → page.pagination = none →
      (fetchLoop up fuel idx acc cur).result = .error .typeError := by
  intro fuel
  induction fuel with
  | zero =>
    intro idx acc cur k page hik hk hup hpn
    cases cur <;> simp [fetchLoop] at hk <;> omega
  | succ n ih =>
    intro idx acc cur k page hik hk hup hpn
    cases cur with
    | none => simp [fetchLoop] at hk; omega
    | some c =>
      cases h : up idx with
      | error e' =>
        simp only [fetchLoop, h] at hk
        have hke : k = idx := by omega
        rw [hke, h] at hup
        exact Except.noConfusion hup
      | ok page' =>
        by_cases hki : k = idx
        · subst hki
          rw [h] at hup
          injection hup with he
          subst he
          simp [fetchLoop, h, hpn]
        · simp only [fetchLoop, h] at hk ⊢
          cases hp' : page'.pagination with
          | none =>
            simp only [hp'] at hk
            omega
          | some pg' =>
            simp only [hp', List.length_append] at hk ⊢
            by_cases hlen : 1000 ≤ acc.length + page'.data.length
            · simp only [if_pos hlen] at hk
              omega
            · simp only [if_neg hlen] at hk ⊢
              exact ih (idx + 1) (acc ++ page'.data) pg'.cursor k page
                (by omega) hk hup hpn

/-- C10: a consumed page response carrying a `data` array but no
`pagination` object makes the whole load fail with the `TypeError` from
`response.pagination.cursor` — it is not treated as a final page, and
the DataList state afterwards holds no records, only the error
message. -/
theorem load_fails_on_missing_pagination (up : Upstream) (k : Nat) (page : Page)
    (hk : k < (runStreams up).fetches) (hup : up k = .ok page)
    (hpn : page.pagination = none) :
    (runStreams up).result = .error .typeError ∧
      fetchAllStreams up = .error .typeError ∧
      loadStreams up = ⟨[], [], some (errorMessage .typeError), false⟩ := by
  have hres : (runStreams up).result = .error .typeError := by
    unfold runStreams at hk ⊢
    cases h : up 0 with
    | error e' =>
      simp only [h] at hk
      have hk0 : k = 0 := by simp at hk; omega
      rw [hk0, h] at hup
      exact Except.noConfusion hup
    | ok page' =>
      simp only [h] at hk ⊢
      cases hp' : page'.pagination with
      | none => simp
      | some pg0 =>
        simp only [hp'] at hk ⊢
        by_cases hk0 : k = 0
        · subst hk0
          rw [h] at hup
          injection hup with he
          rw [he, hpn] at hp'
          exact Option.noConfusion hp'
        · exact fetchLoop_missing_pagination up 10 1 page'.data pg0.cursor k page
            (by omega) hk hup hpn
  refine ⟨hres, ?_, ?_⟩
  · unfold fetchAllStreams
    rw [hres]
    rfl
  · unfold loadStreams fetchAllStreams
    rw [hres]
    rfl

/-- C10, witness: a second page with records but no pagination object
fails the whole load. -/
theorem load_fails_on_missing_pagination_witness :
    (runStreams upNoPagination).result = .error .typeError ∧
      fetchAllStreams upNoPagination = .error .typeError ∧
      loadStreams upNoPagination
        = ⟨[], [], some (errorMessage .typeError), false⟩ :=
  load_fails_on_missing_pagination upNoPagination 1
    ⟨[sampleStream "b" "ub" "t" 2], none⟩ (by decide) (by decide) (by decide)

/-- Unfolding one step of `consumedRaw`. -/
theorem consumedRaw_succ (up : Upstream) (n : Nat) :
    consumedRaw up (n + 1) = consumedRaw up n ++ pageDataOf up n := by
  unfold consumedRaw
  rw [List.range_succ, List.map_append, List.flatten_append]
  simp

/-- Inside the loop, a further fetch is only issued while the raw
accumulated count is still below 1000: if fetch `k + 1` happened, the
records of pages `0..k` numbered fewer than 1000. -/
theorem fetchLoop_no_fetch_past_1000 (up : Upstream) :
    ∀ (fuel idx : Nat) (cur : Option String) (k : Nat),
      idx ≤ k →
      k + 1 < (fetchLoop up fuel idx (consumedRaw up idx) cur).fetches →
      (consumedRaw up (k + 1)).length < 1000 := by
  intro fuel
  induction fuel with
  | zero =>
    intro idx cur k hik hk
    cases cur <;> simp [fetchLoop] at hk <;> omega
  | succ n ih =>
    intro idx cur k hik hk
    cases cur with
    | none => simp [fetchLoop] at hk; omega
    | some c =>
      cases h : up idx with
      | error e' =>
        simp only [fetchLoop, h] at hk
        omega
      | ok page =>
        have hacc : consumedRaw up idx ++ page.data = consumedRaw up (idx + 1) := by
          rw [consumedRaw_succ]
          unfold pageDataOf
          rw [h]
        simp only [fetchLoop, h] at hk
        cases hp : page.pagination with
        | none =>
          simp only [hp] at hk
          omega
        | some pg =>
          simp only [hp, List.length_append] at hk
          by_cases hlen : 1000 ≤ (consumedRaw up idx).length + page.data.length
          · simp only [if_pos hlen] at hk
            omega
          · simp only [if_neg hlen] at hk
            rw [hacc] at hk
            by_cases hki : k = idx
            · subst hki
              rw [← hacc]
              simp only [List.length_append]
              omega
            · exact ih (idx + 1) pg.cursor k (by omega) hk

/-- If every delivered page carries at most 100 records and the loop is
entered with at most 999 records, the final raw list never exceeds 1099
records. -/
theorem fetchLoop_raw_le (up : Upstream)
    (hpages : ∀ (k : Nat) (p : Page), up k = .ok p → p.data.length ≤ 100) :
    ∀ (fuel idx : Nat) (acc : List TwitchStream) (cur : Option String),
      acc.length ≤ 999 →
      (fetchLoop up fuel idx acc cur).raw.length ≤ 1099 := by
  intro fuel
  induction fuel with
  | zero =>
    intro idx acc cur hacc
    cases cur <;> simp [fetchLoop] <;> omega
  | succ n ih =>
    intro idx acc cur hacc
    cases cur with
    | none => simp [fetchLoop]; omega
    | some c =>
      cases h : up idx with
      | error e' =>
        simp only [fetchLoop, h]
        omega
      | ok page =>
        have hd : page.data.length ≤ 100 := hpages idx page h
        simp only [fetchLoop, h]
        cases hp : page.pagination with
        | none =>
          simp only [hp, RunOut.raw, List.length_append]
          omega
        | some pg =>
          simp only [hp, List.length_append]
          by_cases hlen : 1000 ≤ acc.length + page.data.length
          · simp only [if_pos hlen, RunOut.raw, List.length_append]
            omega
          · simp only [if_neg hlen]
            exact ih (idx + 1) (acc ++ page.data) pg.cursor
              (by simp only [List.length_append]; omega)

/-- C4, amended: the ≥ 1000 check runs only at the end of each loop
iteration, never after the first page.  Hence (a) if every page carries
at most 100 records the raw accumulated count never exceeds 1099, and
(b) within the loop, a further fetch `k + 1` is issued only while the
raw count over pages `0..k` is still below 1000.  (The first page is
exempt: see the counterexample for a first page of 1000 records that
still triggers one more fetch.) -/
theorem raw_ceiling (up : Upstream) :
    ((∀ (k : Nat) (p : Page), up k = .ok p → p.data.length ≤ 100) →
      (runStreams up).raw.length ≤ 1099) ∧
    (∀ k : Nat, 1 ≤ k → k + 1 < (runStreams up).fetches →
      (consumedRaw up (k + 1)).length < 1000) := by
  constructor
  · intro hpages
    unfold runStreams
    cases h : up 0 with
    | error e' => simp
    | ok page =>
      simp only [h]
      cases hp : page.pagination with
      | none =>
        simp only [hp, RunOut.raw]
        have := hpages 0 page h
        omega
      | some pg =>
        simp only [hp]
        exact fetchLoop_raw_le up hpages 10 1 page.data pg.cursor
          (by have := hpages 0 page h; omega)
  · intro k hk1 hk
    unfold runStreams at hk
    cases h : up 0 with
    | error e' => simp [h] at hk
    | ok page =>
      simp only [h] at hk
      cases hp : page.pagination with
      | none => simp [hp] at hk
      | some pg =>
        simp only [hp] at hk
        have hfirst : page.data = consumedRaw up 1 := by
          rw [consumedRaw_succ]
          unfold consumedRaw pageDataOf
          rw [h]
          simp
        rw [hfirst] at hk
        exact fetchLoop_no_fetch_past_1000 up 10 1 pg.cursor k hk1 hk

/-- C4, witness for the amended claim: the all-empty-pages upstream
satisfies the 100-record page bound, so its raw count is within the
ceiling, and the raw count before its third fetch was below 1000. -/
theorem raw_ceiling_witness :
    (runStreams upAlwaysCursor).raw.length ≤ 1099 ∧
      (consumedRaw upAlwaysCursor 2).length < 1000 :=
  ⟨(raw_ceiling upAlwaysCursor).1
      (by intro k p h; injection h with he; rw [← he]; decide),
    (raw_ceiling upAlwaysCursor).2 1 (by decide) (by decide)⟩

set_option maxRecDepth 100000 in
/-- C4, counterexample: a first page that already carries 1000 records
and a cursor does not stop the load — a second page fetch is still
issued, contradicting "once the raw count reaches at least 1000, no
further page fetches are issued". -/
theorem first_page_ceiling_gap :
    1000 ≤ (consumedRaw upFirstPageBig 1).length ∧
      (runStreams upFirstPageBig).fetches = 2 := by
  constructor <;> decide

/-! ### Lemmas about the JS `Map` dedupe -/

/-- Overwriting an existing key: looking that key up afterwards yields
the new value. -/
theorem find?_overwrite (k : String) (v : TwitchStream) :
    ∀ (m : List (String × TwitchStream)), (∃ kv ∈ m, kv.1 = k) →
      (m.map (fun kv => if kv.1 = k then (k, v) else kv)).find? (fun kv => kv.1 = k)
        = some (k, v) := by
  intro m
  induction m with
  | nil => intro h; simp at h
  | cons hd tl ih =>
    intro h
    by_cases hhd : hd.1 = k
    · simp only [List.map_cons, if_pos hhd]
      rw [List.find?_cons_of_pos _ (by simp)]
    · have htl : ∃ kv ∈ tl, kv.1 = k := by
        rcases h with ⟨kv, hmem, hkv⟩
        rcases List.mem_cons.mp hmem with rfl | hmem'
        · exact absurd hkv hhd
        · exact ⟨kv, hmem', hkv⟩
      simp only [List.map_cons, if_neg hhd]
      rw [List.find?_cons_of_neg _ (by simp [hhd])]
      exact ih htl

/-- Overwriting key `k` leaves lookups of any other key unchanged. -/
theorem find?_overwrite_other (k k' : String) (v : TwitchStream) (hne : k' ≠ k) :
    ∀ (m : List (String × TwitchStream)),
      (m.map (fun kv => if kv.1 = k then (k, v) else kv)).find? (fun kv => kv.1 = k')
        = m.find? (fun kv => kv.1 = k') := by
  intro m
  induction m with
  | nil => simp
  | cons hd tl ih =>
    by_cases hhd : hd.1 = k
    · simp only [List.map_cons, if_pos hhd]
      have hkk : ¬ k = k' := fun hkk => hne hkk.symm
      rw [List.find?_cons_of_neg _ (by simp [hkk]),
        List.find?_cons_of_neg _ (by simp [hhd, hkk])]
      exact ih
    · simp only [List.map_cons, if_neg hhd]
      by_cases hk' : hd.1 = k'
      · rw [List.find?_cons_of_pos _ (by simp [hk']),
          List.find?_cons_of_pos _ (by simp [hk'])]
      · rw [List.find?_cons_of_neg _ (by simp [hk']),
          List.find?_cons_of_neg _ (by simp [hk'])]
        exact ih

/-- `map.set(k, v)` then `map.get(k)` yields `v`. -/
theorem jsMapSet_lookup_self (m : List (String × TwitchStream)) (k : String)
    (v : TwitchStream) : lookupKey (jsMapSet m k v) k = some (k, v) := by
  unfold jsMapSet lookupKey
  by_cases hmem : (m.any fun kv => kv.1 = k) = true
  · rw [if_pos hmem]
    refine find?_overwrite k v m ?_
    rcases List.any_eq_true.mp hmem with ⟨kv, hkv, hk⟩
    exact ⟨kv, hkv, by simpa using hk⟩
  · rw [if_neg hmem]
    have hnone : m.find? (fun kv => kv.1 = k) = none := by
      rw [List.find?_eq_none]
      intro kv hkv hk
      exact hmem (List.any_eq_true.mpr ⟨kv, hkv, hk⟩)
    rw [List.find?_append, hnone]
    simp

/-- `map.set(k, v)` leaves other keys' lookups unchanged. -/
theorem jsMapSet_lookup_other (m : List (String × TwitchStream)) (k k' : String)
    (v : TwitchStream) (hne : k' ≠ k) :
    lookupKey (jsMapSet m k v) k' = lookupKey m k' := by
  unfold jsMapSet lookupKey
  by_cases hmem : (m.any fun kv => kv.1 = k) = true
  · rw [if_pos hmem]
    exact find?_overwrite_other k k' v hne m
  · rw [if_neg hmem]
    rw [List.find?_append]
    cases h : m.find? (fun kv => kv.1 = k') with
    | some kv => simp
    | none =>
      have hkk : ¬ k = k' := fun hkk => hne hkk.symm
      simp [hkk]

/-- Overwriting an existing key keeps the key sequence unchanged. -/
theorem jsMapSet_keys_of_mem (m : List (String × TwitchStream)) (k : String)
    (v : TwitchStream) (hmem : (m.any fun kv => kv.1 = k) = true) :
    (jsMapSet m k v).map Prod.fst = m.map Prod.fst := by
  unfold jsMapSet
  rw [if_pos hmem, List.map_map]
  apply List.map_congr_left
  intro kv _
  by_cases hkv : kv.1 = k
  · simp [hkv]
  · simp [hkv]

/-- Inserting a fresh key appends it to the key sequence. -/
theorem jsMapSet_keys_of_not_mem (m : List (String × TwitchStream)) (k : String)
    (v : TwitchStream) (hmem : ¬ (m.any fun kv => kv.1 = k) = true) :
    (jsMapSet m k v).map Prod.fst = m.map Prod.fst ++ [k] := by
  unfold jsMapSet
  rw [if_neg hmem]
  simp

/-- `map.set` preserves distinctness of the stored keys. -/
theorem jsMapSet_keys_nodup (m : List (String × TwitchStream)) (k : String)
    (v : TwitchStream) (h : (m.map Prod.fst).Nodup) :
    ((jsMapSet m k v).map Prod.fst).Nodup := by
  by_cases hmem : (m.any fun kv => kv.1 = k) = true
  · rw [jsMapSet_keys_of_mem m k v hmem]
    exact h
  · rw [jsMapSet_keys_of_not_mem m k v hmem]
    have hk : k ∉ m.map Prod.fst := by
      intro hkm
      rcases List.mem_map.mp hkm with ⟨kv, hkv, hfst⟩
      exact hmem (List.any_eq_true.mpr ⟨kv, hkv, by simp [hfst]⟩)
    rw [List.nodup_append]
    exact ⟨h, List.nodup_singleton k, by
      intro a ha hak
      rw [List.mem_singleton.mp hak] at ha
      exact hk ha⟩

/-- Every property of entries that `jsMapSet` inserts is preserved. -/
theorem jsMapSet_forall (m : List (String × TwitchStream)) (k : String)
    (v : TwitchStream) (P : String × TwitchStream → Prop)
    (hm : ∀ kv ∈ m, P kv) (hv : P (k, v)) : ∀ kv ∈ jsMapSet m k v, P kv := by
  unfold jsMapSet
  by_cases hmem : (m.any fun kv => kv.1 = k) = true
  · rw [if_pos hmem]
    intro kv hkv
    rcases List.mem_map.mp hkv with ⟨kv', hkv', heq⟩
    by_cases h1 : kv'.1 = k
    · rw [if_pos h1] at heq
      rw [← heq]
      exact hv
    · rw [if_neg h1] at heq
      rw [← heq]
      exact hm kv' hkv'
  · rw [if_neg hmem]
    intro kv hkv
    rcases List.mem_append.mp hkv with h | h
    · exact hm kv h
    · rw [List.mem_singleton.mp h]
      exact hv

/-- Folding entries into the map keeps the stored keys distinct. -/
theorem foldl_jsMapSet_keys_nodup (entries : List (String × TwitchStream)) :
    ∀ m, (m.map Prod.fst).Nodup →
      ((entries.foldl (fun m kv => jsMapSet m kv.1 kv.2) m).map Prod.fst).Nodup := by
  induction entries with
  | nil => intro m h; exact h
  | cons e es ih =>
    intro m h
    exact ih _ (jsMapSet_keys_nodup m e.1 e.2 h)

/-- Folding entries into the map: the value stored under `k` afterwards
is the last entry with key `k`, or the previous value when no entry
carries `k`. -/
theorem foldl_jsMapSet_lookup (entries : List (String × TwitchStream)) :
    ∀ (m : List (String × TwitchStream)) (k : String),
      lookupKey (entries.foldl (fun m kv => jsMapSet m kv.1 kv.2) m) k =
        match (entries.filter (fun kv => kv.1 = k)).getLast? with
        | none => lookupKey m k
        | some kv => some (k, kv.2) := by
  induction entries with
  | nil => intro m k; rfl
  | cons e es ih =>
    intro m k
    simp only [List.foldl_cons]
    rw [ih (jsMapSet m e.1 e.2) k]
    by_cases he : e.1 = k
    · rw [List.filter_cons_of_pos (by simp [he])]
      cases hlast : (es.filter (fun kv => kv.1 = k)).getLast? with
      | some kv =>
        have hne : es.filter (fun kv => kv.1 = k) ≠ [] := by
          intro hnil
          rw [hnil] at hlast
          exact Option.noConfusion hlast
        rw [show e :: es.filter (fun kv => kv.1 = k)
            = [e] ++ es.filter (fun kv => kv.1 = k) from rfl,
          List.getLast?_append_of_ne_nil _ hne, hlast]
      | none =>
        have hnil : es.filter (fun kv => kv.1 = k) = [] := by
          cases hcc : es.filter (fun kv => kv.1 = k) with
          | nil => rfl
          | cons x xs =>
            rw [hcc] at hlast
            simp [List.getLast?] at hlast
        rw [hnil]
        simp only [List.getLast?_singleton]
        rw [← he]
        exact jsMapSet_lookup_self m e.1 e.2
    · rw [List.filter_cons_of_neg (by simp [he])]
      cases hlast : (es.filter (fun kv => kv.1 = k)).getLast? with
      | some kv => rfl
      | none =>
        exact jsMapSet_lookup_other m e.1 k e.2 (fun hkk => he hkk.symm)

/-- Folding entries into the map: the stored keys are the previous keys
plus the entry keys. -/
theorem foldl_jsMapSet_mem_keys (entries : List (String × TwitchStream)) :
    ∀ m (k : String),
      k ∈ (entries.foldl (fun m kv => jsMapSet m kv.1 kv.2) m).map Prod.fst ↔
        k ∈ m.map Prod.fst ∨ k ∈ entries.map Prod.fst := by
  induction entries with
  | nil => simp
  | cons e es ih =>
    intro m k
    simp only [List.foldl_cons]
    rw [ih]
    have hset : k ∈ (jsMapSet m e.1 e.2).map Prod.fst ↔
        k ∈ m.map Prod.fst ∨ k = e.1 := by
      by_cases hmem : (m.any fun kv => kv.1 = e.1) = true
      · rw [jsMapSet_keys_of_mem _ _ _ hmem]
        constructor
        · exact Or.inl
        · rintro (h | rfl)
          · exact h
          · rcases List.any_eq_true.mp hmem with ⟨kv, hkv, hk1⟩
            exact List.mem_map.mpr ⟨kv, hkv, by simpa using hk1⟩
      · rw [jsMapSet_keys_of_not_mem _ _ _ hmem]
        simp
    rw [hset]
    simp only [List.map_cons, List.mem_cons]
    tauto

/-- Every entry property preserved by insertion holds of the folded
map. -/
theorem foldl_jsMapSet_forall (P : String × TwitchStream → Prop) :
    ∀ (entries : List (String × TwitchStream)), (∀ kv ∈ entries, P kv) →
      ∀ m, (∀ kv ∈ m, P kv) →
        ∀ kv ∈ entries.foldl (fun m kv => jsMapSet m kv.1 kv.2) m, P kv := by
  intro entries
  induction entries with
  | nil => intro _ m hm; exact hm
  | cons e es ih =>
    intro hent m hm
    exact ih (fun kv hkv => hent kv (List.mem_cons_of_mem e hkv)) _
      (jsMapSet_forall m e.1 e.2 P hm (hent e (List.mem_cons_self e es)))

/-- In a map with distinct keys, every stored entry is what lookup of
its key returns. -/
theorem lookup_of_mem_nodup :
    ∀ (m : List (String × TwitchStream)), (m.map Prod.fst).Nodup →
      ∀ kv ∈ m, lookupKey m kv.1 = some kv := by
  intro m
  induction m with
  | nil => intro _ kv h; simp at h
  | cons hd tl ih =>
    intro hnd kv hkv
    rw [List.map_cons] at hnd
    have hnd' := List.nodup_cons.mp hnd
    rcases List.mem_cons.mp hkv with rfl | htl
    · unfold lookupKey
      rw [List.find?_cons_of_pos _ (by simp)]
    · have hne : ¬ hd.1 = kv.1 := by
        intro heq
        exact hnd'.1 (heq ▸ List.mem_map.mpr ⟨kv, htl, rfl⟩)
      unfold lookupKey
      rw [List.find?_cons_of_neg _ (by simp [hne])]
      exact ih hnd'.2 kv htl

/-- The deduplicated map stores, under each id, the last record of the
input carrying that id. -/
theorem dedupe_lookup (l : List TwitchStream) (k : String) :
    lookupKey (jsMapOfEntries (l.map (fun s => (s.id, s)))) k =
      ((l.filter (fun s => s.id = k)).getLast?).map (fun s => (k, s)) := by
  unfold jsMapOfEntries
  rw [foldl_jsMapSet_lookup]
  have hfm : (l.map (fun s => (s.id, s))).filter (fun kv => kv.1 = k)
      = (l.filter (fun s => s.id = k)).map (fun s => (s.id, s)) :=
    List.filter_map (fun s => (s.id, s)) l
  rw [hfm, List.getLast?_map]
  cases hl : (l.filter (fun s => s.id = k)).getLast? with
  | none => rfl
  | some s => rfl

/-- Distinct keys of the dedupe map. -/
theorem dedupe_keys_nodup (l : List TwitchStream) :
    ((jsMapOfEntries (l.map (fun s => (s.id, s)))).map Prod.fst).Nodup :=
  foldl_jsMapSet_keys_nodup _ [] (by simp)

/-- Every entry of the dedupe map stores a record under its own id. -/
theorem dedupe_entries_wf (l : List TwitchStream) :
    ∀ kv ∈ jsMapOfEntries (l.map (fun s => (s.id, s))), kv.2.id = kv.1 := by
  unfold jsMapOfEntries
  refine foldl_jsMapSet_forall _ _ ?_ [] (by simp)
  intro kv hkv
  rcases List.mem_map.mp hkv with ⟨s, _, heq⟩
  rw [← heq]

/-- With distinct keys, filtering a map by one key keeps exactly one
entry when the key is stored, none otherwise. -/
theorem filter_key_length :
    ∀ (m : List (String × TwitchStream)), (m.map Prod.fst).Nodup →
      ∀ i, (m.filter (fun kv => kv.1 = i)).length
        = if i ∈ m.map Prod.fst then 1 else 0 := by
  intro m
  induction m with
  | nil => simp
  | cons hd tl ih =>
    intro hnd i
    rw [List.map_cons] at hnd
    have hnd' := List.nodup_cons.mp hnd
    by_cases hhd : hd.1 = i
    · rw [List.filter_cons_of_pos (by simp [hhd])]
      have hnotin : i ∉ tl.map Prod.fst := by
        intro hmem
        exact hnd'.1 (hhd ▸ hmem)
      rw [List.length_cons, ih hnd'.2 i, if_neg hnotin]
      simp [hhd]
    · rw [List.filter_cons_of_neg (by simp [hhd])]
      rw [ih hnd'.2 i]
      have hne : ¬ i = hd.1 := fun h => hhd h.symm
      have hiff : (i ∈ hd.1 :: List.map Prod.fst tl) ↔ i ∈ List.map Prod.fst tl := by
        rw [List.mem_cons]
        exact or_iff_right hne
      rw [List.map_cons, if_congr hiff rfl rfl]

/-- The dedupe result has exactly one record per id occurring in the
input, and none for other ids. -/
theorem dedupe_count (l : List TwitchStream) (i : String) :
    ((dedupeStreams l).filter (fun s => s.id = i)).length
      = if l.any (fun s => s.id = i) then 1 else 0 := by
  unfold dedupeStreams
  rw [List.filter_map Prod.snd]
  rw [List.length_map]
  have hcong : (jsMapOfEntries (l.map (fun s => (s.id, s)))).filter
        ((fun s => decide (s.id = i)) ∘ Prod.snd)
      = (jsMapOfEntries (l.map (fun s => (s.id, s)))).filter (fun kv => kv.1 = i) := by
    apply List.filter_congr
    intro kv hkv
    simp [dedupe_entries_wf l kv hkv]
  rw [hcong, filter_key_length _ (dedupe_keys_nodup l) i]
  have hmem : i ∈ (jsMapOfEntries (l.map (fun s => (s.id, s)))).map Prod.fst ↔
      (l.any (fun s => s.id = i)) = true := by
    unfold jsMapOfEntries
    rw [foldl_jsMapSet_mem_keys]
    simp only [List.map_map, List.mem_map, List.any_eq_true]
    constructor
    · rintro (h | ⟨s, hs, heq⟩)
      · simp at h
      · exact ⟨s, hs, by simp [← heq]⟩
    · rintro ⟨s, hs, heq⟩
      exact Or.inr ⟨s, hs, by simpa using heq.symm⟩
  by_cases hany : (l.any (fun s => s.id = i)) = true
  · rw [if_pos (hmem.mpr hany), if_pos hany]
  · rw [if_neg (fun h => hany (hmem.mp h)), if_neg hany]

/-- Every record of the dedupe result is the last record of the input
with its id. -/
theorem dedupe_last_wins (l : List TwitchStream) (s : TwitchStream)
    (hs : s ∈ dedupeStreams l) :
    (l.filter (fun t => t.id = s.id)).getLast? = some s := by
  unfold dedupeStreams at hs
  rcases List.mem_map.mp hs with ⟨kv, hkv, hsnd⟩
  have hlk := lookup_of_mem_nodup _ (dedupe_keys_nodup l) kv hkv
  rw [dedupe_lookup l kv.1] at hlk
  cases hl : (l.filter (fun t => t.id = kv.1)).getLast? with
  | none =>
    rw [hl] at hlk
    exact Option.noConfusion hlk
  | some t =>
    rw [hl] at hlk
    rw [Option.map_some'] at hlk
    injection hlk with hkvt
    have ht : t = s := by
      rw [← hsnd, ← hkvt]
    have hid : kv.1 = s.id := by
      rw [← hsnd]
      exact (dedupe_entries_wf l kv hkv).symm
    rw [← hid, hl, ht]

/-- The last input record with a given id lies in the last page that
mentions the id: all later pages carry no record with it. -/
theorem getLast?_filter_flatten (pages : List (List TwitchStream)) (i : String)
    (s : TwitchStream)
    (h : (pages.flatten.filter (fun t => t.id = i)).getLast? = some s) :
    ∃ pre p post, pages = pre ++ p :: post ∧ s ∈ p ∧
      ∀ q ∈ post, ∀ t ∈ q, ¬ t.id = i := by
  induction pages using List.reverseRecOn with
  | nil => simp at h
  | append_singleton ps q ih =>
    rw [List.flatten_append] at h
    simp only [List.flatten_cons, List.flatten_nil, List.append_nil] at h
    rw [List.filter_append] at h
    by_cases hq : q.filter (fun t => t.id = i) = []
    · rw [hq, List.append_nil] at h
      rcases ih h with ⟨pre, p, post, hps, hsp, hpost⟩
      refine ⟨pre, p, post ++ [q], by rw [hps]; simp, hsp, ?_⟩
      intro q2 hq2 t ht
      rcases List.mem_append.mp hq2 with h2 | h2
      · exact hpost q2 h2 t ht
      · rw [List.mem_singleton.mp h2] at ht
        have := List.filter_eq_nil_iff.mp hq t ht
        simpa using this
    · rw [List.getLast?_append_of_ne_nil _ hq] at h
      exact ⟨ps, q, [], rfl,
        List.mem_of_mem_filter (List.mem_of_mem_getLast? h), by simp⟩

/-- C2: deduplicating the concatenation of the fetched pages keeps
exactly one record per distinct id (and none for absent ids); each kept
record is the last input occurrence of its id, and it comes from the
last page in which that id was seen. -/
theorem dedupe_spec (pages : List (List TwitchStream)) :
    (∀ i : String,
      ((dedupeStreams pages.flatten).filter (fun s => s.id = i)).length
        = if pages.flatten.any (fun s => s.id = i) then 1 else 0) ∧
    (∀ s ∈ dedupeStreams pages.flatten,
      (pages.flatten.filter (fun t => t.id = s.id)).getLast? = some s) ∧
    (∀ s ∈ dedupeStreams pages.flatten,
      ∃ pre p post, pages = pre ++ p :: post ∧ s ∈ p ∧
        ∀ q ∈ post, ∀ t ∈ q, ¬ t.id = s.id) := by
  refine ⟨fun i => dedupe_count _ i, fun s hs => dedupe_last_wins _ s hs, ?_⟩
  intro s hs
  exact getLast?_filter_flatten pages s.id s (dedupe_last_wins _ s hs)

/-- C2, witness: two pages repeating id "a" — the dedupe keeps exactly
one "a" record, namely the one from the second (last) page. -/
theorem dedupe_spec_witness :
    ((dedupeStreams [[sampleStream "a" "u" "t" 1, sampleStream "b" "u" "t" 2],
        [sampleStream "a" "u" "t" 3]].flatten).filter (fun s => s.id = "a")).length = 1 ∧
    ([[sampleStream "a" "u" "t" 1, sampleStream "b" "u" "t" 2],
        [sampleStream "a" "u" "t" 3]].flatten.filter
          (fun t => t.id = (sampleStream "a" "u" "t" 3).id)).getLast?
      = some (sampleStream "a" "u" "t" 3) := by
  constructor
  · have h := (dedupe_spec [[sampleStream "a" "u" "t" 1, sampleStream "b" "u" "t" 2],
      [sampleStream "a" "u" "t" 3]]).1 "a"
    rw [h]
    decide
  · exact (dedupe_spec [[sampleStream "a" "u" "t" 1, sampleStream "b" "u" "t" 2],
      [sampleStream "a" "u" "t" 3]]).2.1 (sampleStream "a" "u" "t" 3) (by decide)

/-! ### Lemmas about the presentation sort -/

instance sortComparatorTotal (o : SortOrder) :
    IsTotal TwitchStream (sortComparator o) :=
  ⟨by intro a b; cases o <;> exact Int.le_total _ _⟩

instance sortComparatorTrans (o : SortOrder) :
    IsTrans TwitchStream (sortComparator o) :=
  ⟨by
    intro a b c hab hbc
    cases o <;> simp only [sortComparator] at hab hbc ⊢ <;> omega⟩

/-- C8: the presentation sort returns a permutation of its input,
ordered by `viewer_count` per the toggle's comparator, and it is stable:
a pair of records with equal viewer counts appearing in some order in
the input appears in the same order in the output. -/
theorem sort_stable (o : SortOrder) (l : List TwitchStream) :
    (sortStreams o l).Perm l ∧
      (sortStreams o l).Pairwise (sortComparator o) ∧
      (∀ a b : TwitchStream, a.viewer_count = b.viewer_count →
        List.Sublist [a, b] l → List.Sublist [a, b] (sortStreams o l)) := by
  refine ⟨List.perm_insertionSort _ l, List.sorted_insertionSort _ l, ?_⟩
  intro a b hvc hab
  apply List.pair_sublist_insertionSort _ hab
  cases o <;> simp only [sortComparator] <;> omega

/-- C8, witness: viewer counts `[50, 200, 50, 10]` sorted descending
give `[200, 50, 50, 10]` with the two 50-viewer records in their
original relative order. -/
theorem sort_stable_witness :
    List.Sublist [sampleStream "a" "u" "t" 50, sampleStream "c" "u" "t" 50]
        (sortStreams .desc
          [sampleStream "a" "u" "t" 50, sampleStream "b" "u" "t" 200,
            sampleStream "c" "u" "t" 50, sampleStream "d" "u" "t" 10]) ∧
      sortStreams .desc
          [sampleStream "a" "u" "t" 50, sampleStream "b" "u" "t" 200,
            sampleStream "c" "u" "t" 50, sampleStream "d" "u" "t" 10]
        = [sampleStream "b" "u" "t" 200, sampleStream "a" "u" "t" 50,
            sampleStream "c" "u" "t" 50, sampleStream "d" "u" "t" 10] := by
  constructor
  · exact (sort_stable .desc
      [sampleStream "a" "u" "t" 50, sampleStream "b" "u" "t" 200,
        sampleStream "c" "u" "t" 50, sampleStream "d" "u" "t" 10]).2.2
      (sampleStream "a" "u" "t" 50) (sampleStream "c" "u" "t" 50)
      (by decide) (by decide)
  · decide

/-! ### Lemmas about the presentation filter -/

/-- Lowercasing both sides and testing `includes` is exactly the
case-insensitive-substring test. -/
theorem jsIncludes_toLower_iff (hay needle : String) :
    jsIncludes (jsToLower hay) (jsToLower needle) = true ↔
      caseInsensitiveSubstr needle hay := by
  unfold jsIncludes jsToLower caseInsensitiveSubstr
  rw [decide_eq_true_eq]
  constructor
  · rintro ⟨s, t, hst⟩
    rcases List.append_eq_map_iff.mp hst with ⟨l₁, l₂, hl, hs, hmt⟩
    rcases List.append_eq_map_iff.mp hs.symm with ⟨l₀, w, hl₁, hs0, hw⟩
    refine ⟨w, ⟨l₀, l₂, ?_⟩, hw⟩
    rw [hl, hl₁, List.append_assoc]
  · rintro ⟨w, hsub, hmap⟩
    have := List.IsInfix.map Char.toLower hsub
    rw [hmap] at this
    exact this

/-- C9: with a non-empty query, the filter keeps exactly the records
whose title — or, in the `DataList.tsx` variant, whose `user_name` —
contains the query as a case-insensitive substring; an empty query keeps
the list unchanged.  Both the title-or-user and the title-only variants
are covered. -/
theorem filter_spec (q : String) (l : List TwitchStream) :
    (¬ q = "" → ∀ s : TwitchStream,
      (s ∈ filterStreams q l ↔ s ∈ l ∧
        (caseInsensitiveSubstr q s.title ∨ caseInsensitiveSubstr q s.user_name))) ∧
    filterStreams "" l = l ∧
    (¬ q = "" → ∀ s : TwitchStream,
      (s ∈ filterStreamsTitleOnly q l ↔ s ∈ l ∧ caseInsensitiveSubstr q s.title)) ∧
    filterStreamsTitleOnly "" l = l := by
  refine ⟨?_, by unfold filterStreams; rw [if_pos rfl], ?_,
    by unfold filterStreamsTitleOnly; rw [if_pos rfl]⟩
  · intro hq s
    unfold filterStreams
    rw [if_neg hq, List.mem_filter]
    unfold matchesSearch
    rw [Bool.or_eq_true, jsIncludes_toLower_iff, jsIncludes_toLower_iff]
  · intro hq s
    unfold filterStreamsTitleOnly
    rw [if_neg hq, List.mem_filter]
    unfold matchesSearchTitleOnly
    rw [jsIncludes_toLower_iff]

/-- C9, witness: the query "Valorant" keeps "valorant chill"
case-insensitively, and an empty query keeps the list unchanged. -/
theorem filter_spec_witness :
    sampleStream "3" "z" "valorant chill" 3 ∈ filterStreams "Valorant"
      [sampleStream "1" "x" "Valorant Ranked Grind" 1,
        sampleStream "2" "y" "Chatting" 2,
        sampleStream "3" "z" "valorant chill" 3] ∧
    filterStreams "" [sampleStream "2" "y" "Chatting" 2]
      = [sampleStream "2" "y" "Chatting" 2] := by
  constructor
  · apply ((filter_spec "Valorant"
      [sampleStream "1" "x" "Valorant Ranked Grind" 1,
        sampleStream "2" "y" "Chatting" 2,
        sampleStream "3" "z" "valorant chill" 3]).1 (by decide)
      (sampleStream "3" "z" "valorant chill" 3)).mpr
    exact ⟨by decide, Or.inl ⟨"valorant".data, by decide, by decide⟩⟩
  · exact (filter_spec "" [sampleStream "2" "y" "Chatting" 2]).2.1

/-! ### Lemmas about the token manager -/

/-- C6: a valid cached token (non-empty, before its stored expiry
`acquisition + expires_in * 1000 - 60000`) is returned by both copies of
`getOAuthToken` unchanged and without a network call; consequently,
starting from the empty cache, a first call that exchanges successfully
and a second call before the stored expiry perform exactly one exchange
in total, the second returning the cached token. -/
theorem token_cache_reuse (env : Env) (now : Int) (exchange : ExchangeResult)
    (st : TokenState) (t : String) (ht : st.cachedToken = some t) (hne : ¬ t = "")
    (hexp : now < st.tokenExpiry) :
    (getOAuthToken env now exchange st = ⟨.ok t, st, 0⟩ ∧
      getOAuthTokenV1 env now exchange st = ⟨.ok t, st, 0⟩) ∧
    (∀ (now₁ now₂ lifetime : Int) (tok : String) (ex₂ : ExchangeResult),
      truthy env.TWITCH_CLIENT_ID = true → truthy env.TWITCH_CLIENT_SECRET = true →
      ¬ tok = "" → now₂ < now₁ + lifetime * 1000 - 60000 →
      (getOAuthToken env now₁ (.ok ⟨tok, lifetime⟩) initialTokenState).networkCalls = 1 ∧
      (getOAuthToken env now₂ ex₂
        (getOAuthToken env now₁ (.ok ⟨tok, lifetime⟩) initialTokenState).state).networkCalls
        = 0 ∧
      (getOAuthToken env now₂ ex₂
        (getOAuthToken env now₁ (.ok ⟨tok, lifetime⟩) initialTokenState).state).result
        = .ok tok) := by
  have hvalid : cacheValid st now = true := by
    unfold cacheValid truthy
    rw [ht]
    simp [hne, hexp]
  refine ⟨⟨?_, ?_⟩, ?_⟩
  · unfold getOAuthToken
    rw [if_pos hvalid, ht]
    rfl
  · unfold getOAuthTokenV1
    rw [if_pos hvalid, ht]
    rfl
  · intro now₁ now₂ lifetime tok ex₂ hid hsec htok hwin
    have h1 : getOAuthToken env now₁ (.ok ⟨tok, lifetime⟩) initialTokenState
        = ⟨.ok tok, ⟨some tok, now₁ + lifetime * 1000 - 60000⟩, 1⟩ := by
      unfold getOAuthToken
      rw [if_neg (by unfold cacheValid truthy initialTokenState; simp)]
      rw [if_neg (by rw [hid, hsec]; simp)]
    rw [h1]
    have hvalid2 : cacheValid ⟨some tok, now₁ + lifetime * 1000 - 60000⟩ now₂ = true := by
      unfold cacheValid truthy
      simp [htok, hwin]
    have h2 : getOAuthToken env now₂ ex₂
        ⟨some tok, now₁ + lifetime * 1000 - 60000⟩
        = ⟨.ok tok, ⟨some tok, now₁ + lifetime * 1000 - 60000⟩, 0⟩ := by
      unfold getOAuthToken
      rw [if_pos hvalid2]
      rfl
    rw [h2]
    exact ⟨rfl, rfl, rfl⟩

/-- C6, witness: with credentials present, a call at time 0 exchanging
a one-hour token and a second call at time 100 reuse the cache: one
exchange in total. -/
theorem token_cache_reuse_witness :
    (getOAuthToken ⟨some "id", some "sec"⟩ 0 (.ok ⟨"tok", 3600⟩)
        initialTokenState).networkCalls = 1 ∧
      (getOAuthToken ⟨some "id", some "sec"⟩ 100 (.error (401, "bad"))
        (getOAuthToken ⟨some "id", some "sec"⟩ 0 (.ok ⟨"tok", 3600⟩)
          initialTokenState).state).networkCalls = 0 ∧
      (getOAuthToken ⟨some "id", some "sec"⟩ 100 (.error (401, "bad"))
        (getOAuthToken ⟨some "id", some "sec"⟩ 0 (.ok ⟨"tok", 3600⟩)
          initialTokenState).state).result = .ok "tok" :=
  (token_cache_reuse ⟨some "id", some "sec"⟩ 0 (.ok ⟨"tok", 3600⟩)
      ⟨some "t", 1⟩ "t" rfl (by decide) (by decide)).2
    0 100 3600 "tok" (.error (401, "bad"))
    (by decide) (by decide) (by decide) (by decide)

/-- C7, amended: the credential-checking copy of `getOAuthToken` (the
second in `steams.js`) throws the configuration error before any
network call when either credential is falsy and no valid cached token
exists; the first copy has no such check and performs the exchange
anyway (see the counterexample). -/
theorem missing_credentials_config_error (env : Env) (now : Int)
    (exchange : ExchangeResult) (st : TokenState)
    (hcache : cacheValid st now = false)
    (hmiss : truthy env.TWITCH_CLIENT_ID = false ∨
      truthy env.TWITCH_CLIENT_SECRET = false) :
    getOAuthToken env now exchange st = ⟨.error .configError, st, 0⟩ := by
  have hcond : (!truthy env.TWITCH_CLIENT_ID || !truthy env.TWITCH_CLIENT_SECRET)
      = true := by
    rcases hmiss with h | h <;> simp [h]
  unfold getOAuthToken
  rw [if_neg (by simp [hcache]), if_pos hcond]

/-- C7, witness for the amended claim: missing client id, empty cache —
the checking copy fails with the configuration error and performs no
network call. -/
theorem missing_credentials_config_error_witness :
    getOAuthToken ⟨none, some "sec"⟩ 0 (.error (401, "bad")) initialTokenState
      = ⟨.error .configError, initialTokenState, 0⟩ :=
  missing_credentials_config_error ⟨none, some "sec"⟩ 0 (.error (401, "bad"))
    initialTokenState (by decide) (Or.inl (by decide))

/-- C7, counterexample: the first copy of `getOAuthToken` has no
credential check — with the client id absent and the cache empty it
still performs the credential-exchange network call and surfaces the
exchange failure, not a configuration error. -/
theorem v1_missing_credentials_still_calls :
    (getOAuthTokenV1 ⟨none, some "sec"⟩ 0 (.error (401, "bad"))
        initialTokenState).networkCalls = 1 ∧
      (getOAuthTokenV1 ⟨none, some "sec"⟩ 0 (.error (401, "bad"))
        initialTokenState).result = .error .tokenRequestFailed := by
  constructor <;> rfl

end StreamSpec
